import Mathlib

/-!
A verification development for the `fastrouter` HTTP router (package
`fastrouter`, files `router.go` and `parser.go`).

The embedding is shallow:

* `parsePatternL` embeds `Parser.Parse` with the default parser regexp
  `<([^/:]+)(:([^/]+))?>` (`parser.go`).  Go's `FindAllStringSubmatch` /
  `ReplaceAllStringFunc` pair over that fixed regexp is embedded as a single
  left-to-right scan (`scanPattern`); the leftmost-first backtracking behaviour
  of the placeholder regexp is worked out explicitly in `matchPlaceholder`.
* A small regular-expression engine (`Reg`, `pAlt`/`pSeq`/`pAtom`, `mmatch`)
  models the compiled `regexp.Regexp` objects on the syntax fragment this
  repository produces: literals, character classes, escapes, groups,
  alternation and the postfix operators.  Matching is leftmost-first
  (backtracking order), exactly Go's submatch semantics.
* The combined matcher `^(?:(r1)|(r2)|...|(rn))$` built in `Router.prepare`
  is modelled by the ordered list of its alternative fragments
  (`findCombined`): the first alternative whose fragment matches the whole
  path wins, its selector group captures the whole path, its nested groups
  capture per the fragment's own match, and every other alternative's groups
  are unset (returned as `""`, as Go's `FindStringSubmatch` does).
* `Router` is the router tree; Go maps keyed by method / group prefix are
  association lists (claims never depend on map iteration order beyond
  membership).  Handlers and middleware are abstract identifiers (`Nat`); a
  finalised handler is the pair (middleware chain, handler id), wrapping a
  middleware being consing it at the front (outermost first).
* `serveHTTP` embeds `Router.ServeHTTP` as a function from (router, method,
  request path) to the ordered list of observable actions (`Ev`): redirects,
  headers, handler invocations, fallbacks; a Go panic (nil dereference /
  index out of range) is the event `Ev.panicked`.
-/

/-! ### Association lists (Go maps; first-occurrence lookup, update-or-append) -/

def alookup {α : Type} (k : String) : List (String × α) → Option α
  | [] => none
  | (k', v) :: t => if k' = k then some v else alookup k t

def aupdate {α : Type} (k : String) (v : α) : List (String × α) → List (String × α)
  | [] => [(k, v)]
  | (k', v') :: t => if k' = k then (k', v) :: t else (k', v') :: aupdate k v t

/-! ### A regular-expression engine

Models the subset of Go `regexp` syntax that the router's fragments use.
Group indices are assigned by opening-parenthesis order (Go numbering),
starting from 0 for the fragment's own first group.
-/

inductive CItem where
  | ch (c : Char)
  | range (lo hi : Char)
deriving DecidableEq

inductive Reg where
  | eps
  | lit (c : Char)
  | cls (neg : Bool) (items : List CItem)
  | bol
  | eol
  | seq (a b : Reg)
  | alt (a b : Reg)
  | star (a : Reg)
  | grp (idx : Nat) (a : Reg)
deriving DecidableEq

def citemMatch (c : Char) : CItem → Bool
  | .ch c' => c = c'
  | .range lo hi => lo ≤ c ∧ c ≤ hi

def clsMatch (neg : Bool) (items : List CItem) (c : Char) : Bool :=
  if neg then ¬ (items.any (citemMatch c)) else items.any (citemMatch c)

def digitItems : List CItem := [.range '0' '9']

def wordItems : List CItem := [.range '0' '9', .range 'A' 'Z', .range 'a' 'z', .ch '_']

def spaceItems : List CItem := [.ch ' ', .ch '\t', .ch '\n', .ch '\x0b', .ch '\x0c', .ch '\r']

/-- An escape `\c` outside a character class. -/
def escReg (c : Char) : Reg :=
  if c = 'd' then .cls false digitItems
  else if c = 'D' then .cls true digitItems
  else if c = 'w' then .cls false wordItems
  else if c = 'W' then .cls true wordItems
  else if c = 's' then .cls false spaceItems
  else if c = 'S' then .cls true spaceItems
  else .lit c

/-- An escape `\c` inside a character class. -/
def escItems (c : Char) : List CItem :=
  if c = 'd' then digitItems
  else if c = 'w' then wordItems
  else if c = 's' then spaceItems
  else if c = 'n' then [.ch '\n']
  else if c = 't' then [.ch '\t']
  else [.ch c]

/-- Parse the body of a character class, up to the closing `]`. -/
def pClassItems : Nat → List Char → Option (List CItem × List Char)
  | 0, _ => none
  | fuel + 1, s =>
    match s with
    | [] => none
    | ']' :: t => some ([], t)
    | '\\' :: c :: t =>
      (pClassItems fuel t).map (fun r => (escItems c ++ r.1, r.2))
    | c :: '-' :: d :: t =>
      if d = ']' then some ([.ch c, .ch '-'], t)
      else (pClassItems fuel t).map (fun r => (CItem.range c d :: r.1, r.2))
    | c :: t =>
      (pClassItems fuel t).map (fun r => (CItem.ch c :: r.1, r.2))

/-- Parser level: alternation, concatenation, postfixed atom, atom. -/
inductive PLevel where
  | alt
  | sq
  | post
  | atom

/-- Recursive-descent parser for the regex syntax, all levels in one
fuel-structural function.  `g` is the next capture-group number. -/
def pReg : Nat → PLevel → Nat → List Char → Option (Reg × Nat × List Char)
  | 0, _, _, _ => none
  | fuel + 1, .alt, g, s =>
    (pReg fuel .sq g s).bind fun r =>
      match r.2.2 with
      | '|' :: t => (pReg fuel .alt r.2.1 t).map (fun r2 => (.alt r.1 r2.1, r2.2))
      | _ => some r
  | fuel + 1, .sq, g, s =>
    (match s with
     | [] => some (.eps, g, [])
     | ')' :: _ => some (.eps, g, s)
     | '|' :: _ => some (.eps, g, s)
     | _ =>
       (pReg fuel .post g s).bind fun r =>
         (pReg fuel .sq r.2.1 r.2.2).map fun r2 => (.seq r.1 r2.1, r2.2))
  | fuel + 1, .post, g, s =>
    (pReg fuel .atom g s).map fun r =>
      match r.2.2 with
      | '?' :: t => (.alt r.1 .eps, r.2.1, t)
      | '*' :: t => (.star r.1, r.2.1, t)
      | '+' :: t => (.seq r.1 (.star r.1), r.2.1, t)
      | _ => r
  | fuel + 1, .atom, g, s =>
    (match s with
     | '(' :: '?' :: ':' :: t =>
       (pReg fuel .alt g t).bind fun r =>
         match r.2.2 with
         | ')' :: t' => some (r.1, r.2.1, t')
         | _ => none
     | '(' :: t =>
       (pReg fuel .alt (g + 1) t).bind fun r =>
         match r.2.2 with
         | ')' :: t' => some (.grp g r.1, r.2.1, t')
         | _ => none
     | '[' :: '^' :: t =>
       (pClassItems (t.length + 1) t).map fun r => (.cls true r.1, g, r.2)
     | '[' :: t =>
       (pClassItems (t.length + 1) t).map fun r => (.cls false r.1, g, r.2)
     | '\\' :: c :: t => some (escReg c, g, t)
     | '.' :: t => some (.cls true [.ch '\n'], g, t)
     | '^' :: t => some (.bol, g, t)
     | '$' :: t => some (.eol, g, t)
     | c :: t => some (.lit c, g, t)
     | [] => none)

def pAlt (fuel g : Nat) (s : List Char) : Option (Reg × Nat × List Char) :=
  pReg fuel .alt g s

/-- Parse a whole regex fragment; returns the AST and its capture-group count. -/
def parseReg (s : String) : Option (Reg × Nat) :=
  (pAlt (4 * s.length + 16) 0 s.data).bind fun r =>
    match r.2.2 with
    | [] => some (r.1, r.2.1)
    | _ => none

def Caps := List (Option String)

instance : DecidableEq Caps := by
  unfold Caps; infer_instance

/-- Backtracking matcher in continuation-passing style (leftmost-first, greedy:
Go/RE2 submatch semantics).  `orig` is the full input length, used by `^`.
Fuel only bounds recursion depth; it is chosen large enough below. -/
def mmatch : Nat → Nat → Reg → List Char → Caps →
    (List Char → Caps → Option Caps) → Option Caps
  | 0, _, _, _, _, _ => none
  | fuel + 1, orig, r, s, caps, k =>
    match r with
    | .eps => k s caps
    | .lit c =>
      match s with
      | c' :: t => if c' = c then k t caps else none
      | [] => none
    | .cls neg items =>
      match s with
      | c' :: t => if clsMatch neg items c' then k t caps else none
      | [] => none
    | .bol => if s.length = orig then k s caps else none
    | .eol => if s.isEmpty then k s caps else none
    | .seq a b =>
      mmatch fuel orig a s caps (fun s' c' => mmatch fuel orig b s' c' k)
    | .alt a b =>
      match mmatch fuel orig a s caps k with
      | some res => some res
      | none => mmatch fuel orig b s caps k
    | .grp i a =>
      mmatch fuel orig a s caps
        (fun s' c' => k s' (c'.set i (some (String.mk (s.take (s.length - s'.length))))))
    | .star a =>
      match mmatch fuel orig a s caps
          (fun s' c' =>
            if s'.length < s.length then mmatch fuel orig (.star a) s' c' k
            else none) with
      | some res => some res
      | none => k s caps

def regSize : Reg → Nat
  | .eps => 1
  | .lit _ => 1
  | .cls _ _ => 1
  | .bol => 1
  | .eol => 1
  | .seq a b => regSize a + regSize b + 1
  | .alt a b => regSize a + regSize b + 1
  | .star a => regSize a + 1
  | .grp _ a => regSize a + 1

/-- Match `r` against the whole of `path`; on success return the `n` capture
groups, unset ones as `""` (Go returns empty strings for unmatched groups). -/
def matchFull (r : Reg) (n : Nat) (path : List Char) : Option (List String) :=
  (mmatch ((regSize r + 2) * (path.length + 2) * 2) path.length r path
      (List.replicate n none)
      (fun s caps => if s.isEmpty then some caps else none)).map
    (fun caps => caps.map (fun o => o.getD ""))

/-- Does the fragment (as regex source text) match the whole path?  If so,
return its capture groups. -/
def fragFullMatch (frag : String) (path : List Char) : Option (List String) :=
  (parseReg frag).bind fun rn => matchFull rn.1 rn.2 path

/-- Capture-group count of a fragment, if it parses. -/
def fragCapCountO (frag : String) : Option Nat :=
  (parseReg frag).map (fun rn => rn.2)

def fragCapCount (frag : String) : Nat := (fragCapCountO frag).getD 0

/-- The all-empty block an unmatched alternative contributes to the submatch
array: one selector slot plus one slot per capture group of the fragment. -/
def padOf (frag : String) : List String := List.replicate (1 + fragCapCount frag) ""

/-- The group part (indices 1..) of `FindStringSubmatch` on the combined
matcher `^(?:(r1)|...|(rn))$`: first alternative matching the whole path
wins; its selector captures the whole path; other alternatives' groups are
unset (`""`). -/
def findCombinedAux (path : List Char) : List String → Option (List String)
  | [] => none
  | f :: t =>
    match fragFullMatch f path with
    | some caps => some ((String.mk path :: caps) ++ (t.map padOf).flatten)
    | none => (findCombinedAux path t).map (fun rest => padOf f ++ rest)

/-- Model of `reg.FindStringSubmatch(path)` for the combined matcher built
from the fragments `frags` (in registration order).  Index 0 is the whole
match, which for the anchored matcher is the whole path. -/
def findCombined (frags : List String) (path : List Char) : Option (List String) :=
  (findCombinedAux path frags).map (fun rest => String.mk path :: rest)

/-- Model of `reg.MatchString(path)` for a combined matcher. -/
def anyFragMatch (frags : List String) (path : List Char) : Bool :=
  frags.any (fun f => (fragFullMatch f path).isSome)

/-! ### The default pattern parser (`Parser.Parse`, `parser.go`)

`defaultParserRegexp` is `<([^/:]+)(:([^/]+))?>`.  `matchPlaceholder` is the
leftmost-first backtracking behaviour of that regexp at a `<`:

* group 1 (`[^/:]+`, greedy) first takes the maximal run `R` of characters
  other than `/` and `:`;
* with the optional `(:([^/]+))?` present (preferred), group 3 greedily takes
  non-`/` characters and backtracks to the last `>` of that run;
* otherwise group 1 itself backtracks to the last `>` inside `R`.
-/

/-- Split at the *last* `>` of the list: `lastGtSplit s = some (pre, post)`
with `s = pre ++ '>' :: post` and `'>' ∉ post`. -/
def lastGtSplit : List Char → Option (List Char × List Char)
  | [] => none
  | c :: t =>
    match lastGtSplit t with
    | some r => some (c :: r.1, r.2)
    | none => if c = '>' then some ([], t) else none

/-- Backtracking into group 1: shrink it to its last `>`. -/
def phFallback (R rest : List Char) : Option (List Char × Option (List Char) × List Char) :=
  match lastGtSplit R with
  | some r => if r.1.isEmpty then none else some (r.1, none, r.2 ++ rest)
  | none => none


/-- Group 1 of the placeholder regexp: `[^/:]`. -/
def phG1 (c : Char) : Bool := ¬ (c = '/' ∨ c = ':')

/-- Group 3 of the placeholder regexp: `[^/]`. -/
def phG3 (c : Char) : Bool := ¬ c = '/'

/-- The part of the placeholder match after group 1 has taken the maximal
run `R`: either the optional `(:([^/]+))?` group (preferred), a direct `>`,
or backtracking into group 1. -/
def matchPlaceholderTail (R rest : List Char) : Option (List Char × Option (List Char) × List Char) :=
  match rest with
  | ':' :: t2 =>
    (match lastGtSplit (t2.takeWhile phG3) with
     | some r =>
       if r.1.isEmpty then phFallback R (':' :: t2)
       else some (R, some r.1, r.2 ++ t2.drop (t2.takeWhile phG3).length)
     | none => phFallback R (':' :: t2))
  | '>' :: t2 => some (R, none, t2)
  | _ => phFallback R rest

/-- Match `([^/:]+)(:([^/]+))?>` against `t` (the text after a `<`), with
Go's leftmost-first preferences.  Returns (name, optional subexpression,
rest after the closing `>`). -/
def matchPlaceholder (t : List Char) : Option (List Char × Option (List Char) × List Char) :=
  if (t.takeWhile phG1).length = 0 then none
  else matchPlaceholderTail (t.takeWhile phG1) (t.drop (t.takeWhile phG1).length)

/-- Replacement text for one placeholder (`ReplaceAllStringFunc` callback):
`(` subexpr `)` when group 3 matched, else `([^/]+)`. -/
def phReplacement (sub? : Option (List Char)) : List Char :=
  match sub? with
  | some sub => '(' :: (sub ++ [')'])
  | none => "([^/]+)".data

/-- Left-to-right scan of the pattern for placeholder matches, fusing
`FindAllStringSubmatch` and `ReplaceAllStringFunc` over `defaultParserRegexp`
(both walk the same non-overlapping leftmost matches): returns the fragment
under construction and the (name, subexpression?) list in match order.
Each step consumes at least one character, so fuel `l.length` never runs
out (`scanPatternF_fuelIrrel` below). -/
def scanPatternF : Nat → List Char → List Char × List (List Char × Option (List Char))
  | 0, _ => ([], [])
  | _ + 1, [] => ([], [])
  | fuel + 1, c :: t =>
    if c = '<' then
      match matchPlaceholder t with
      | some (name, sub?, rest) =>
        (phReplacement sub? ++ (scanPatternF fuel rest).1,
         (name, sub?) :: (scanPatternF fuel rest).2)
      | none => (c :: (scanPatternF fuel t).1, (scanPatternF fuel t).2)
    else (c :: (scanPatternF fuel t).1, (scanPatternF fuel t).2)

def scanPattern (l : List Char) : List Char × List (List Char × Option (List Char)) :=
  scanPatternF l.length l

/-- Embeds `Parser.Parse` (`parser.go`) on the character list of the pattern:
reject a pattern not beginning with `/`; strip one trailing `/` (recording
it) unless the pattern is exactly `/`; replace placeholders; append `/?`. -/
def parsePatternL (p : List Char) : Except String (List Char × List String × Bool) :=
  if ¬ p.head? = some '/' then
    Except.error "the pattern MUST begin with a slash"
  else
    let hasTS : Bool := (¬ p = ['/'] : Bool) && (p.getLast? = some '/' : Bool)
    let p' := if hasTS then p.dropLast else p
    let s := scanPattern p'
    Except.ok (s.1 ++ "/?".data, s.2.map (fun x => String.mk x.1), hasTS)

/-- Embeds `Parser.Parse` on strings. -/
def parsePattern (p : String) : Except String (String × List String × Bool) :=
  (parsePatternL p.data).map (fun r => (String.mk r.1, r.2.1, r.2.2))

/-! ### The router (`router.go`)

Handlers, middleware and the custom fallback handlers are abstract identifiers
(`Nat`).  A chained handler is the pair (middleware identifiers outermost
first, handler identifier); wrapping a middleware is consing it.  Go maps
(`routes`, `groups`, `combinedRegexps`) are association lists; the compiled
combined regexp of a method is modelled by its list of alternative fragments
in registration order (see `findCombined`).  The group router created by
`Router.Group` inherits the (default) parser; configuration fields are read
from the root router only, as in the source.
-/

/-- Trailing-slashes policies, `router.go` constants. -/
def IgnoreTrailingSlashes : Nat := 0

def AppendTrailingSlashes : Nat := 1

def RemoveTrailingSlashes : Nat := 2

def StrictTrailingSlashes : Nat := 3

/-- One registered route (`type route` in `router.go`). -/
structure RouteR where
  reg : String
  params : List String
  hasTS : Bool
  mw : List Nat
  handler : Nat
  finalH : Option (List Nat × Nat)
deriving DecidableEq

/-! The router tree (`type Router`).  The parent pointer is represented by
passing the ancestor middleware chain down the tree during preparation.
The prefix-to-group map is the mutually inductive association list
`GroupList` so that the tree recursion of `prepare` is structural. -/

mutual

inductive Router where
  | mk (mw : List Nat)
       (routes : List (String × List (Option RouteR)))
       (groups : GroupList)
       (creg : List (String × List String))
       (policy : Nat)
       (optionsH : Option Nat)
       (mnaH : Option Nat)
       (nfH : Option Nat)

inductive GroupList where
  | nil
  | cons (pfx : String) (g : Router) (t : GroupList)

end

def GroupList.glen : GroupList → Nat
  | .nil => 0
  | .cons _ _ t => 1 + t.glen

/-- First-occurrence lookup in the prefix map. -/
def glookup (k : String) : GroupList → Option Router
  | .nil => none
  | .cons p g t => if p = k then some g else glookup k t

/-- Insert a new prefix (the source only ever adds fresh keys). -/
def gappend (p : String) (g : Router) : GroupList → GroupList
  | .nil => .cons p g .nil
  | .cons q h t => .cons q h (gappend p g t)

def Router.mw : Router → List Nat
  | .mk a _ _ _ _ _ _ _ => a

def Router.routes : Router → List (String × List (Option RouteR))
  | .mk _ a _ _ _ _ _ _ => a

def Router.groups : Router → GroupList
  | .mk _ _ a _ _ _ _ _ => a

def Router.creg : Router → List (String × List String)
  | .mk _ _ _ a _ _ _ _ => a

def Router.policy : Router → Nat
  | .mk _ _ _ _ a _ _ _ => a

def Router.optionsH : Router → Option Nat
  | .mk _ _ _ _ _ a _ _ => a

def Router.mnaH : Router → Option Nat
  | .mk _ _ _ _ _ _ a _ => a

def Router.nfH : Router → Option Nat
  | .mk _ _ _ _ _ _ _ a => a

/-- Embeds `New()` / `NewWithParser`: empty maps, Ignore policy, no custom handlers. -/
def newRouter : Router := .mk [] [] .nil [] IgnoreTrailingSlashes none none none

/-- The per-method effect of `Router.Handle`: parse the pattern (a parse
error makes `Handle` panic, modelled as `none`), then append the route
followed by one `nil` slot per parameter. -/
def appendRoute (rs : List (Option RouteR)) (pattern : String) (h : Nat) (mw : List Nat) :
    Option (List (Option RouteR)) :=
  match parsePattern pattern with
  | .error _ => none
  | .ok r =>
    some (rs ++ some { reg := r.1, params := r.2.1, hasTS := r.2.2, mw := mw,
                       handler := h, finalH := none } :: List.replicate r.2.1.length none)

/-- Embeds `Router.Handle`: initialise the method's list to `[nil]` on first use,
then append. -/
def handle (r : Router) (method pattern : String) (h : Nat) (mw : List Nat) : Option Router :=
  match r with
  | .mk gmw routes groups creg pol oh mh nh =>
    (appendRoute ((alookup method routes).getD [none]) pattern h mw).map fun rs' =>
      .mk gmw (aupdate method rs' routes) groups creg pol oh mh nh

/-- Sequential registrations on one router (each a `Handle` call). -/
def handleAll (r : Router) : List (String × String × Nat × List Nat) → Option Router
  | [] => some r
  | (m, p, h, mw) :: t => (handle r m p h mw).bind (fun r' => handleAll r' t)

/-- Embeds `Router.Group` followed by registrations on the new group: attach the
built child under the prefix, with the source's validity checks (panic,
modelled as `none`, on an empty prefix, a prefix containing `/`, or a
duplicate prefix). -/
def addGroup (r : Router) (pfx : String) (g : Router) : Option Router :=
  match r with
  | .mk gmw routes groups creg pol oh mh nh =>
    if pfx = "" then none
    else if pfx.data.contains '/' then none
    else
      match glookup pfx groups with
      | some _ => none
      | none => some (.mk gmw routes (gappend pfx g groups) creg pol oh mh nh)

/-- Set the node's middleware list (`r.Middleware = ...`). -/
def setMw (r : Router) (l : List Nat) : Router :=
  match r with
  | .mk _ routes groups creg pol oh mh nh => .mk l routes groups creg pol oh mh nh

/-- Set the trailing-slashes policy (root option). -/
def setPolicy (r : Router) (p : Nat) : Router :=
  match r with
  | .mk gmw routes groups creg _ oh mh nh => .mk gmw routes groups creg p oh mh nh

/-- Set the custom not-found handler (root option). -/
def setNfH (r : Router) (h : Option Nat) : Router :=
  match r with
  | .mk gmw routes groups creg pol oh mh _ => .mk gmw routes groups creg pol oh mh h

/-- One wrapping loop of `prepare` (`for j := len(mws)-1; j >= 0; j--`):
the first middleware of the list ends up outermost. -/
def wrapAll (mws : List Nat) (h : List Nat × Nat) : List Nat × Nat :=
  List.foldr (fun m acc => (m :: acc.1, acc.2)) h mws

/-- The fragments `prepare` joins into the method's combined regexp:
the `reg` of every non-nil route, in slot order. -/
def fragsOf (rs : List (Option RouteR)) : List String :=
  rs.filterMap (fun o => o.map (fun rt => rt.reg))

/-- The middleware chaining of `prepare` for one route: route middleware
wrapped innermost-first, then the global chain `mws` (ancestors then the
node's own middleware) outermost. -/
def setFinalH (mws : List Nat) (rt : RouteR) : RouteR :=
  { rt with finalH := some (wrapAll mws (wrapAll rt.mw ([], rt.handler))) }

/-- The per-method chaining loop of `prepare` over the routes map. -/
def prepRoutes (mws : List Nat) (routes : List (String × List (Option RouteR))) :
    List (String × List (Option RouteR)) :=
  routes.map (fun e => (e.1, e.2.map (Option.map (setFinalH mws))))

/-- Embeds `r.combinedRegexps[method] = regexp.MustCompile(...)` for every method
of the routes map: rebuild the method's combined matcher (its fragment
list) from the non-nil routes. -/
def prepCreg (routes : List (String × List (Option RouteR)))
    (creg : List (String × List String)) : List (String × List String) :=
  routes.foldl (fun acc e => aupdate e.1 (fragsOf e.2) acc) creg

mutual

/-- Embeds `Router.prepare`, with the ancestor middleware chain `inh` passed down
(the source recovers it through the parent pointer: `r.middleware()` is the
parent chain followed by the node's own middleware).  For every route it
chains route middleware then the global chain onto the bare handler, storing
`finalHandler`; it rebuilds the method's combined matcher from the non-nil
routes' fragments; then it recurses into the groups. -/
def prepareAux (inh : List Nat) : Router → Router
  | .mk gmw routes groups creg pol oh mh nh =>
    Router.mk gmw
      (prepRoutes (inh ++ gmw) routes)
      (prepareGroups (inh ++ gmw) groups)
      (prepCreg routes creg)
      pol oh mh nh

/-- Embeds the loop over the groups map in `prepare`, recursing into every group. -/
def prepareGroups (inh : List Nat) : GroupList → GroupList
  | .nil => .nil
  | .cons p g t => .cons p (prepareAux inh g) (prepareGroups inh t)

end

/-- Embeds `Router.Prepare` on the root. -/
def prepare (r : Router) : Router := prepareAux [] r

/-- The end `i` of the first path segment (`for i < len(path) && path[i] != '/'`
starting from `i := 1`). -/
def segEnd (path : List Char) : Nat :=
  1 + ((path.drop 1).takeWhile (fun c => ¬ c = '/')).length

/-- Embeds `Router.fetchGroup`.  Note the source's loop condition checks
`len(r.groups)` on the *root* receiver, not the current node; the lookup is
on the current node, so behaviour is unchanged, and we keep the source's
condition via `rootHasGroups`. -/
def fetchGroupF : Nat → Bool → Router → List Char → Router × List Char
  | 0, _, router, path => (router, path)
  | fuel + 1, rootHasGroups, router, path =>
    if ¬ path = ['/'] ∧ rootHasGroups then
      if 1 < segEnd path then
        match glookup (String.mk ((path.drop 1).take (segEnd path - 1))) router.groups with
        | some g =>
          if segEnd path < path.length then
            fetchGroupF fuel rootHasGroups g (path.drop (segEnd path))
          else (g, ['/'])
        | none => (router, path)
      else (router, path)
    else (router, path)

/-- Each `goto walk` drops at least two characters from the path, so fuel
`path.length` never runs out (and at fuel 0 the path is empty, where the
loop would stop anyway). -/
def fetchGroup (rootHasGroups : Bool) (router : Router) (path : List Char) : Router × List Char :=
  fetchGroupF path.length rootHasGroups router path

/-- Embeds `Router.retrieveMethods`: all methods whose combined matcher matches
the path.  The source iterates a Go map (random order); the claims below
only use membership and emptiness of this list. -/
def retrieveMethods (router : Router) (path : List Char) : List String :=
  router.creg.filterMap (fun e => if anyFragMatch e.2 path then some e.1 else none)

/-- The route-identification scan of `ServeHTTP`:
`for i := 1; i < len(matches) && matches[i] == ""; i++`. -/
def scanIdx (ms : List String) : Nat :=
  1 + ((ms.drop 1).takeWhile (fun s => s = "")).length

/-- Observable actions of one dispatch, in order. -/
inductive Ev where
  | allowHeader (methods : List String)
  | httpError (body : String) (code : Nat)
  | redirect (location : String) (code : Nat)
  | invoke (chain : List Nat) (handler : Nat) (params : List (String × String)) (reqPath : String)
  | callOptions (h : Nat) (methods : List String)
  | callMNA (h : Nat) (methods : List String)
  | callNotFound (h : Nat)
  | notFound404
  | panicked
deriving DecidableEq

/-- Parameter extraction: `for _, name := range route.params { i++;
params[name] = matches[i] }`; `none` models the index-out-of-range panic. -/
def extractParams (names : List String) (ms : List String) (i : Nat) :
    Option (List (String × String)) :=
  match names with
  | [] => some []
  | n :: t =>
    (ms.get? (i + 1)).bind fun v =>
      (extractParams t ms (i + 1)).map fun r => (n, v) :: r

/-- The tail of the matched branch: bind parameters (if any) and invoke the
finalised handler.  A nil `finalHandler` (`prepare` never ran) or an
out-of-range `matches` access is a panic. -/
def invokePart (rt : RouteR) (ms : List String) (i : Nat) (curPath : String) : List Ev :=
  match extractParams rt.params ms i with
  | some ps =>
    match rt.finalH with
    | some fh => [.invoke fh.1 fh.2 ps curPath]
    | none => [.panicked]
  | none => [.panicked]

/-- The matched branch of `ServeHTTP` from the trailing-slashes block on:
`urlPath` is the original request path (`req.URL.Path`), which redirects
use.  The Strict remove-slash branch in the source lacks a `return`: it
writes the redirect and still falls through to invocation, with the
stripped path. -/
def servMatched (root : Router) (method urlPath : String) (rt : RouteR)
    (ms : List String) (i : Nat) : List Ev :=
  if ¬ root.policy = IgnoreTrailingSlashes then
    if urlPath.data.length = 0 then [.panicked]
    else
      let code := if method = "GET" then 301 else 308
      let isRoot := urlPath = "/"
      let endSlash := urlPath.data.getLast? = some '/'
      if root.policy = RemoveTrailingSlashes ∧ endSlash ∧ ¬ isRoot then
        [.redirect (String.mk urlPath.data.dropLast) code]
      else if root.policy = AppendTrailingSlashes ∧ ¬ endSlash ∧ ¬ isRoot then
        [.redirect (urlPath ++ "/") code]
      else if root.policy = StrictTrailingSlashes ∧ ¬ isRoot ∧ rt.hasTS ∧ ¬ endSlash then
        [.redirect (urlPath ++ "/") code]
      else if root.policy = StrictTrailingSlashes ∧ ¬ isRoot ∧ ¬ rt.hasTS ∧ endSlash then
        Ev.redirect (String.mk urlPath.data.dropLast) code ::
          invokePart rt ms i (String.mk urlPath.data.dropLast)
      else invokePart rt ms i urlPath
  else invokePart rt ms i urlPath

/-- The fallback branches of `ServeHTTP` (no route matched): OPTIONS, then
405 if some other method matches, else 404.  Custom handlers and policy are
read from the root router, as in the source. -/
def servFallback (root router : Router) (method : String) (path : List Char) : List Ev :=
  let methods := retrieveMethods router path
  if method = "OPTIONS" then
    match root.optionsH with
    | some h => [.callOptions h methods]
    | none => [.allowHeader methods]
  else if 0 < methods.length then
    match root.mnaH with
    | some h => [.callMNA h methods]
    | none => [.allowHeader methods, .httpError "Method Not Allowed" 405]
  else
    match root.nfH with
    | some h => [.callNotFound h]
    | none => [.notFound404]

/-- Embeds `Router.ServeHTTP`: group resolution, combined-matcher lookup and match,
route identification by first-non-empty-group scan (an out-of-range slot or
a nil slot is a nil-dereference/index panic), trailing-slashes handling,
parameter binding, invocation; otherwise the fallback branches. -/
def serveHTTP (r : Router) (method urlPath : String) : List Ev :=
  let fg := fetchGroup (decide (0 < r.groups.glen)) r urlPath.data
  match alookup method fg.1.creg with
  | some frags =>
    match findCombined frags fg.2 with
    | some ms =>
      match ((alookup method fg.1.routes).getD []).get? (scanIdx ms) with
      | some (some rt) => servMatched r method urlPath rt ms (scanIdx ms)
      | _ => [.panicked]
    | none => servFallback r fg.1 method fg.2
  | none => servFallback r fg.1 method fg.2

/-- The response status implied by the event list (Go writes 200 by default
when no explicit status was written; custom handlers decide their own). -/
def evStatus : Ev → Option Nat
  | .httpError _ c => some c
  | .redirect _ c => some c
  | .notFound404 => some 404
  | _ => none

def respStatus (evs : List Ev) : Nat :=
  ((evs.filterMap evStatus).head?).getD 200

/-- The block of slots one registration contributes to the method's route
list: the route itself, then one `nil` slot per parameter. -/
def blockOf (rt : RouteR) : List (Option RouteR) :=
  some rt :: List.replicate rt.params.length none

/-- The method-local route list built by a sequence of `Handle` calls for
one method (interleaved registrations for other methods do not touch it):
continuation of `appendRoute` over the registrations. -/
def buildRoutesAux (rs : List (Option RouteR)) :
    List (String × Nat × List Nat) → Option (List (Option RouteR))
  | [] => some rs
  | (p, h, mw) :: t => (appendRoute rs p h mw).bind (fun rs' => buildRoutesAux rs' t)

def buildRoutes (regs : List (String × Nat × List Nat)) : Option (List (Option RouteR)) :=
  buildRoutesAux [none] regs

mutual

/-- Well-formedness every router reachable through the API has: the routes
map, being a Go map, has no duplicate method keys (recursively in groups). -/
def wfRouterB : Router → Bool
  | .mk _ routes groups _ _ _ _ _ =>
    decide (routes.map Prod.fst).Nodup && wfGroupsB groups

def wfGroupsB : GroupList → Bool
  | .nil => true
  | .cons _ g t => wfRouterB g && wfGroupsB t

end

/-! ### Concrete scenarios used by the claims -/

/-- C1: one router, three GET routes. -/
def c1Router : Option Router :=
  handleAll newRouter
    [("GET", "/users", 1, []),
     ("GET", "/users/<id:\\d+>", 2, []),
     ("GET", "/users/<id:\\d+>/posts/<title>", 3, [])]

/-- C2 counterexample registrations: the single pattern `/?` (accepted by
`Parse`) whose fragment `/?/?` matches the empty request path. -/
def c2Regs : List (String × Nat × List Nat) := [("/?", 7, [])]

/-- C2 counterexample at router level. -/
def c2Router : Option Router := handle newRouter "GET" "/?" 7 []

/-- C3: route registered without a trailing slash, Strict policy on root. -/
def c3Router : Option Router :=
  (handle newRouter "GET" "/users" 9 []).map (fun r => setPolicy r StrictTrailingSlashes)

/-- C6: root route `/`, group `v1` with `/`, group `v2` with `/` and `/users`. -/
def c6V1 : Option Router := handle newRouter "GET" "/" 2 []

def c6V2 : Option Router := handleAll newRouter [("GET", "/", 3, []), ("GET", "/users", 4, [])]

def c6Root : Option Router :=
  (handle newRouter "GET" "/" 1 []).bind fun rt =>
    c6V1.bind fun g1 =>
      (addGroup rt "v1" g1).bind fun rt' =>
        c6V2.bind fun g2 => addGroup rt' "v2" g2

/-- C7: root middleware `[m1]`, group `g` middleware `[m2]`, route `/x` with
middleware `[m3]` and handler `h`. -/
def c7Root (m1 m2 m3 h : Nat) : Option Router :=
  (handle (setMw newRouter [m2]) "GET" "/x" h [m3]).bind fun g =>
    addGroup (setMw newRouter [m1]) "g" g

/-- C8: only `POST /users` registered. -/
def c8Router : Option Router := handle newRouter "POST" "/users" 5 []

/-- C9 witness: a prepared router with a single `POST /users` route and no
custom 404 handler. -/
def c9WitnessRouter : Option Router := c8Router

/-- Chained handler stored at a slot of a method's route list. -/
def finalChainAt (r : Router) (method : String) (slot : Nat) : Option (List Nat × Nat) :=
  (((alookup method r.routes).getD []).get? slot).bind (fun o => o.bind (fun rt => rt.finalH))

/-- C9 witness router: the prepared `POST /users` router. -/
def c9wr : Router := (c8Router.map prepare).getD newRouter

/-- C2 witness registrations (the C1 table). -/
def c2wRegs : List (String × Nat × List Nat) :=
  [("/users", 1, []), ("/users/<id:\\d+>", 2, []), ("/users/<id:\\d+>/posts/<title>", 3, [])]

/-- C2 witness route list. -/
def c2wRs : List (Option RouteR) := (buildRoutes c2wRegs).getD []

/-- C2 witness submatch array for path `/users/11`. -/
def c2wMs : List String := ["/users/11", "", "/users/11", "11", "", "", ""]

/-- C10 witness router: the C6 tree (root route plus two groups). -/
def c10wr : Router := c6Root.getD newRouter

/-! ### Theorems for the claims -/

set_option maxRecDepth 100000

theorem takeWhile_len_le {α : Type} (p : α → Bool) (l : List α) :
    (l.takeWhile p).length ≤ l.length := by
  induction l with
  | nil => simp
  | cons a t ih =>
    rw [List.takeWhile_cons]
    cases p a with
    | true => simpa using ih
    | false => simp

theorem lastGtSplit_eq (s pre post : List Char) (h : lastGtSplit s = some (pre, post)) :
    s = pre ++ '>' :: post := by
  induction s generalizing pre post with
  | nil => simp [lastGtSplit] at h
  | cons c t ih =>
    rw [lastGtSplit] at h
    cases hr : lastGtSplit t with
    | some r =>
      rw [hr] at h
      simp only [Option.some.injEq, Prod.mk.injEq] at h
      obtain ⟨h1, h2⟩ := h
      have := ih r.1 r.2 (by rw [hr])
      rw [← h1, ← h2]
      simp [this]
    | none =>
      rw [hr] at h
      by_cases hc : c = '>'
      · simp only [hc, if_true, Option.some.injEq, Prod.mk.injEq] at h
        obtain ⟨h1, h2⟩ := h
        rw [hc, ← h1, ← h2]
        simp
      · simp [hc] at h

theorem phFallback_len (R rest name r' : List Char) (sub? : Option (List Char))
    (h : phFallback R rest = some (name, sub?, r')) :
    r'.length + 2 ≤ R.length + rest.length := by
  unfold phFallback at h
  cases hg : lastGtSplit R with
  | some pr =>
    rw [hg] at h
    by_cases hpre : pr.1.isEmpty
    · simp [hpre] at h
    · simp only [hpre, if_false, Bool.false_eq_true, Option.some.injEq, Prod.mk.injEq] at h
      obtain ⟨h1, h2, h3⟩ := h
      have heq := lastGtSplit_eq R pr.1 pr.2 (by rw [hg])
      have hprepos : 0 < pr.1.length := by
        cases h1 : pr.1 with
        | nil => rw [h1] at hpre; simp at hpre
        | cons a b => simp
      have hRlen : R.length = pr.1.length + pr.2.length + 1 := by
        rw [heq]; simp; omega
      rw [← h3]
      simp only [List.length_append]
      omega
  | none => rw [hg] at h; cases h

theorem matchPlaceholderTail_len (R rest name r' : List Char) (sub? : Option (List Char))
    (h : matchPlaceholderTail R rest = some (name, sub?, r')) :
    r'.length < R.length + rest.length := by
  unfold matchPlaceholderTail at h
  split at h
  · -- rest = ':' :: t2
    rename_i t2
    split at h
    · rename_i pr hg
      split at h
      · have := phFallback_len R (':' :: t2) name r' sub? h
        simp only [List.length_cons] at this ⊢
        omega
      · simp only [Option.some.injEq, Prod.mk.injEq] at h
        obtain ⟨h1, h2, h3⟩ := h
        have heq := lastGtSplit_eq _ pr.1 pr.2 (by rw [hg])
        have hSlen : (t2.takeWhile phG3).length = pr.1.length + pr.2.length + 1 := by
          rw [heq]; simp; omega
        have hSle : (t2.takeWhile phG3).length ≤ t2.length := takeWhile_len_le _ _
        rw [← h3]
        simp only [List.length_append, List.length_drop, List.length_cons]
        omega
    · have := phFallback_len R (':' :: t2) name r' sub? h
      simp only [List.length_cons] at this ⊢
      omega
  · -- rest = '>' :: t2
    simp only [Option.some.injEq, Prod.mk.injEq] at h
    obtain ⟨h1, h2, h3⟩ := h
    rw [← h3]
    simp only [List.length_cons]
    omega
  · -- catch-all: phFallback
    have := phFallback_len R rest name r' sub? h
    omega

theorem matchPlaceholder_rest_lt (t name r' : List Char) (sub? : Option (List Char))
    (h : matchPlaceholder t = some (name, sub?, r')) : r'.length < t.length := by
  unfold matchPlaceholder at h
  by_cases hRe : (t.takeWhile phG1).length = 0
  · rw [if_pos hRe] at h; cases h
  · rw [if_neg hRe] at h
    have hlt := matchPlaceholderTail_len _ _ name r' sub? h
    have hle := takeWhile_len_le phG1 t
    simp only [List.length_drop] at hlt
    omega

theorem scanPatternF_fuelIrrel (n : Nat) :
    ∀ (l : List Char) (f1 f2 : Nat), l.length ≤ n → l.length ≤ f1 → l.length ≤ f2 →
      scanPatternF f1 l = scanPatternF f2 l := by
  induction n with
  | zero =>
    intro l f1 f2 hn _ _
    have : l = [] := by cases l with | nil => rfl | cons a t => simp at hn
    subst this
    cases f1 <;> cases f2 <;> rfl
  | succ n ih =>
    intro l f1 f2 hn h1 h2
    cases l with
    | nil => cases f1 <;> cases f2 <;> rfl
    | cons c t =>
      simp only [List.length_cons] at hn h1 h2
      obtain ⟨f1', rfl⟩ : ∃ m, f1 = m + 1 := ⟨f1 - 1, by omega⟩
      obtain ⟨f2', rfl⟩ : ∃ m, f2 = m + 1 := ⟨f2 - 1, by omega⟩
      rw [scanPatternF, scanPatternF]
      by_cases hc : c = '<'
      · rw [if_pos hc, if_pos hc]
        cases hm : matchPlaceholder t with
        | some r =>
          have hlt := matchPlaceholder_rest_lt t r.1 r.2.2 r.2.1 (by rw [hm])
          have heq : scanPatternF f1' r.2.2 = scanPatternF f2' r.2.2 :=
            ih r.2.2 f1' f2' (by omega) (by omega) (by omega)
          cases r with
          | mk name s2 =>
            cases s2 with
            | mk sub? rest => simp only [heq]
        | none =>
          have heq : scanPatternF f1' t = scanPatternF f2' t :=
            ih t f1' f2' (by omega) (by omega) (by omega)
          simp only [heq]
      · rw [if_neg hc, if_neg hc]
        have heq : scanPatternF f1' t = scanPatternF f2' t :=
          ih t f1' f2' (by omega) (by omega) (by omega)
        simp only [heq]


/-- C1: combined-matcher resolution is exact.  On the prepared router with
GET routes `/users`, `/users/<id:\d+>`, `/users/<id:\d+>/posts/<title>`,
dispatching GET `/users/22/posts/hello` invokes handler 3 with bindings
id = "22", title = "hello"; GET `/users/11` invokes handler 2 with
id = "11"; GET `/users` invokes handler 1 with no bindings — all through
the first-non-empty-capture-group scan of `serveHTTP`. -/
theorem C1_combined_matcher_resolution :
    (c1Router.map prepare).map (fun r =>
      (serveHTTP r "GET" "/users/22/posts/hello",
       serveHTTP r "GET" "/users/11",
       serveHTTP r "GET" "/users")) =
    some ([.invoke [] 3 [("id", "22"), ("title", "hello")] "/users/22/posts/hello"],
          [.invoke [] 2 [("id", "11")] "/users/11"],
          [.invoke [] 1 [] "/users"]) := rfl

/-- C3: under the Strict policy, a route registered without a trailing
slash and a request path with one: the dispatcher writes the stripping
redirect but — the strict remove-slash branch of `ServeHTTP` lacking the
`return` its three sibling branches have — still invokes the route's
handler afterwards (with the stripped path), so dispatch does *not*
terminate at the redirect as the specification requires. -/
theorem C3_strict_redirect_missing_return :
    (c3Router.map prepare).map (fun r => serveHTTP r "GET" "/users/") =
    some [.redirect "/users" 301, .invoke [] 9 [] "/users"] := rfl

/-- C4 counterexample: in `defaultParserRegexp` the subexpression group is
`[^/]+`, so a placeholder whose subexpression contains `/` is *not*
recognised: `/x/<id:a/b>` compiles with no parameters and the placeholder
text passes through literally, contradicting the claim that `id` would be
appended and `(a/b)` substituted. -/
theorem C4_slash_subexpr_counterexample :
    parsePattern "/x/<id:a/b>" = .ok ("/x/<id:a/b>/?", [], false) ∧
    (∀ out : String × List String × Bool,
      parsePattern "/x/<id:a/b>" = .ok out → ¬ out.2.1 = ["id"]) := by
  refine ⟨rfl, ?_⟩
  intro out hout
  rw [(rfl : parsePattern "/x/<id:a/b>" = .ok ("/x/<id:a/b>/?", [], false))] at hout
  cases hout
  decide

/-- C5: `Parse` fails (returns an error) exactly when the pattern is empty
or does not begin with `/`; every pattern beginning with `/` succeeds,
returning the fragment, parameter names and trailing-slash flag. -/
theorem C5_parse_error_iff (p : String) :
    (∃ e, parsePattern p = Except.error e) ↔ (p = "" ∨ ¬ p.data.head? = some '/') := by
  unfold parsePattern parsePatternL
  by_cases h : p.data.head? = some '/'
  · rw [if_neg (by simp [h])]
    simp only [Except.map]
    constructor
    · intro ⟨e, he⟩; cases he
    · intro hor
      rcases hor with h0 | hn
      · subst h0; simp at h
      · exact absurd h hn
  · rw [if_pos (by simp [h])]
    simp only [Except.map]
    exact ⟨fun _ => Or.inr h, fun _ => ⟨_, rfl⟩⟩

/-- C6: group resolution is a greedy literal-segment walk.  With root route
`/`, group `v1` (route `/`) and group `v2` (routes `/` and `/users`),
a GET request for `/v2/users` resolves to the `v2` node with remaining path
`/users` and invokes v2's `/users` handler (handler 4) — the root's own
route table is never consulted for that path. -/
theorem C6_group_resolution :
    (c6Root.map prepare).map (fun r =>
      (fetchGroup (decide (0 < r.groups.glen)) r "/v2/users".data,
       serveHTTP r "GET" "/v2/users")) =
    (c6Root.map prepare).map (fun r =>
      (((glookup "v2" r.groups).getD r, "/users".data),
       [.invoke [] 4 [] "/v2/users"])) := rfl

/-- C7: middleware execution order.  For any identifiers m1 (root
middleware), m2 (group middleware), m3 (route middleware) and handler h,
preparation stores the chain (m1, m2, m3, h) — outermost to innermost — as
the route's `finalHandler`, and a matching request executes exactly that
stored chain (it is computed by `prepare`, not per request). -/
theorem C7_middleware_order (m1 m2 m3 h : Nat) :
    ((c7Root m1 m2 m3 h).map prepare).map (fun r =>
      ((glookup "g" r.groups).bind (fun g => finalChainAt g "GET" 1),
       serveHTTP r "GET" "/g/x")) =
    some (some ([m1, m2, m3], h), [.invoke [m1, m2, m3] h [] "/g/x"]) := rfl

/-- C8: method fallback.  With only `POST /users` registered, GET `/users`
yields the `Allow: POST` header and a 405 response with the standard text,
and OPTIONS `/users` yields the default response: `Allow: POST`, status
200, no body. -/
theorem C8_method_fallback :
    (c8Router.map prepare).map (fun r =>
      (serveHTTP r "GET" "/users",
       serveHTTP r "OPTIONS" "/users",
       respStatus (serveHTTP r "OPTIONS" "/users"))) =
    some ([.allowHeader ["POST"], .httpError "Method Not Allowed" 405],
          [.allowHeader ["POST"]],
          200) := rfl

/-- C9 counterexample: an OPTIONS request to a path with an *empty*
allowed-method set does not reach not-found handling: the OPTIONS branch
runs first and sets an (empty) `Allow` header with a 200 response. -/
theorem C9_options_counterexample :
    retrieveMethods (prepare newRouter) "/nope".data = [] ∧
    serveHTTP (prepare newRouter) "OPTIONS" "/nope" = [.allowHeader []] ∧
    ¬ serveHTTP (prepare newRouter) "OPTIONS" "/nope" = [.notFound404] := by
  exact ⟨rfl, rfl, by decide⟩

theorem alookup_mem {α : Type} (k : String) (v : α) (l : List (String × α))
    (h : alookup k l = some v) : (k, v) ∈ l := by
  induction l with
  | nil => simp [alookup] at h
  | cons e t ih =>
    obtain ⟨k', v'⟩ := e
    rw [alookup] at h
    by_cases he : k' = k
    · rw [if_pos he] at h
      cases h
      subst he
      exact List.mem_cons_self _ _
    · rw [if_neg he] at h
      exact List.mem_cons_of_mem _ (ih h)

theorem findCombinedAux_any (path : List Char) (frags : List String) (l : List String)
    (h : findCombinedAux path frags = some l) : anyFragMatch frags path = true := by
  induction frags generalizing l with
  | nil => simp [findCombinedAux] at h
  | cons f t ih =>
    rw [findCombinedAux] at h
    cases hf : fragFullMatch f path with
    | some caps =>
      unfold anyFragMatch
      simp [hf]
    | none =>
      rw [hf] at h
      cases haux : findCombinedAux path t with
      | none => rw [haux] at h; cases h
      | some l' =>
        have := ih l' haux
        unfold anyFragMatch at this ⊢
        simp only [List.any_cons, hf]
        simp [this]

theorem retrieveMethods_mem (router : Router) (path : List Char) (m : String)
    (frags : List String) (hmem : (m, frags) ∈ router.creg)
    (hany : anyFragMatch frags path = true) : m ∈ retrieveMethods router path := by
  unfold retrieveMethods
  rw [List.mem_filterMap]
  exact ⟨(m, frags), hmem, by rw [hany]; simp⟩

/-- C9 (amended: for every *non-OPTIONS* request method): when the resolved
node's allowed-method set is empty, dispatch performs not-found handling —
the custom handler if configured, else the 404 response — and sets no
`Allow` header.  (An OPTIONS request instead takes the OPTIONS branch, see
the counterexample.) -/
theorem C9_not_found_on_empty_methods (r : Router) (method urlPath : String)
    (hm : ¬ method = "OPTIONS")
    (he : retrieveMethods (fetchGroup (decide (0 < r.groups.glen)) r urlPath.data).1
            (fetchGroup (decide (0 < r.groups.glen)) r urlPath.data).2 = []) :
    serveHTTP r method urlPath =
      (match r.nfH with
       | some h => [.callNotFound h]
       | none => [.notFound404]) := by
  unfold serveHTTP
  cases hc : alookup method (fetchGroup (decide (0 < r.groups.glen)) r urlPath.data).1.creg with
  | none =>
    simp only [hc]
    unfold servFallback
    rw [he]
    simp [hm]
  | some frags =>
    simp only [hc]
    cases hm2 : findCombined frags (fetchGroup (decide (0 < r.groups.glen)) r urlPath.data).2 with
    | none =>
      simp only [hm2]
      unfold servFallback
      rw [he]
      simp [hm]
    | some ms =>
      exfalso
      have hmem := alookup_mem _ _ _ hc
      have hany : anyFragMatch frags
          (fetchGroup (decide (0 < r.groups.glen)) r urlPath.data).2 = true := by
        unfold findCombined at hm2
        cases haux : findCombinedAux (fetchGroup (decide (0 < r.groups.glen)) r urlPath.data).2 frags with
        | none => rw [haux] at hm2; cases hm2
        | some l => exact findCombinedAux_any _ _ _ haux
      have hin := retrieveMethods_mem _ _ _ _ hmem hany
      rw [he] at hin
      cases hin

/-- Witness for C9: the prepared POST-only router, a GET request to an
unregistered path. -/
theorem C9_not_found_witness :
    (¬ "GET" = "OPTIONS") ∧
    retrieveMethods (fetchGroup (decide (0 < c9wr.groups.glen)) c9wr "/nope".data).1
        (fetchGroup (decide (0 < c9wr.groups.glen)) c9wr "/nope".data).2 = [] ∧
    serveHTTP c9wr "GET" "/nope" = [.notFound404] := by
  refine ⟨by decide, rfl, ?_⟩
  exact C9_not_found_on_empty_methods c9wr "GET" "/nope" (by decide) rfl

theorem takeWhile_append_middle {α : Type} (p : α → Bool) (A : List α) (b : α) (C : List α)
    (hA : ∀ x ∈ A, p x = true) (hb : p b = false) :
    (A ++ b :: C).takeWhile p = A := by
  induction A with
  | nil => simp [List.takeWhile_cons, hb]
  | cons a t ih =>
    have ha : p a = true := hA a (by simp)
    simp only [List.cons_append, List.takeWhile_cons, ha, if_true]
    rw [ih (fun x hx => hA x (by simp [hx]))]

theorem pad_mem_empty (fs : List String) (x : String)
    (hx : x ∈ (fs.map padOf).flatten) : x = "" := by
  rw [List.mem_flatten] at hx
  obtain ⟨l, hl, hxl⟩ := hx
  rw [List.mem_map] at hl
  obtain ⟨f, _, rfl⟩ := hl
  unfold padOf at hxl
  exact List.eq_of_mem_replicate hxl

theorem buildRoutesAux_shape (regs : List (String × Nat × List Nat)) :
    ∀ (init rs : List (Option RouteR)), buildRoutesAux init regs = some rs →
      ∃ rts : List RouteR, rs = init ++ (rts.map blockOf).flatten := by
  induction regs with
  | nil =>
    intro init rs h
    rw [buildRoutesAux] at h
    cases h
    exact ⟨[], by simp⟩
  | cons e t ih =>
    intro init rs h
    obtain ⟨p, hid, mw⟩ := e
    rw [buildRoutesAux] at h
    cases ha : appendRoute init p hid mw with
    | none => rw [ha] at h; cases h
    | some init' =>
      rw [ha] at h
      simp only [Option.some_bind] at h
      obtain ⟨rts', hrts⟩ := ih init' rs h
      unfold appendRoute at ha
      cases hp : parsePattern p with
      | error err => rw [hp] at ha; cases ha
      | ok trip =>
        rw [hp] at ha
        simp only [Option.some.injEq] at ha
        refine ⟨{ reg := trip.1, params := trip.2.1, hasTS := trip.2.2, mw := mw,
                  handler := hid, finalH := none } :: rts', ?_⟩
        rw [hrts, ← ha]
        simp [blockOf, List.append_assoc]

theorem fragsOf_cons_none (l : List (Option RouteR)) : fragsOf (none :: l) = fragsOf l := by
  simp [fragsOf, List.filterMap_cons]

theorem fragsOf_cons_some (rt : RouteR) (l : List (Option RouteR)) :
    fragsOf (some rt :: l) = rt.reg :: fragsOf l := by
  simp [fragsOf, List.filterMap_cons]

theorem fragsOf_replicate_none (n : Nat) : fragsOf (List.replicate n (none : Option RouteR)) = [] := by
  induction n with
  | zero => rfl
  | succ n ih => rw [List.replicate_succ, fragsOf_cons_none, ih]

theorem fragsOf_append (a b : List (Option RouteR)) :
    fragsOf (a ++ b) = fragsOf a ++ fragsOf b := by
  simp [fragsOf, List.filterMap_append]

theorem fragsOf_blocks (rts : List RouteR) :
    fragsOf ((rts.map blockOf).flatten) = rts.map (fun rt => rt.reg) := by
  induction rts with
  | nil => rfl
  | cons rt t ih =>
    simp only [List.map_cons, List.flatten_cons]
    rw [fragsOf_append, ih]
    have hb : fragsOf (blockOf rt) = [rt.reg] := by
      rw [show blockOf rt = some rt :: List.replicate rt.params.length none from rfl,
          fragsOf_cons_some, fragsOf_replicate_none]
    rw [hb]
    rfl

theorem findCombinedAux_spec (path : List Char) (frags : List String) (l : List String)
    (h : findCombinedAux path frags = some l) :
    ∃ fs1 f fs2 caps, frags = fs1 ++ f :: fs2 ∧
      fragFullMatch f path = some caps ∧
      l = (fs1.map padOf).flatten ++ (String.mk path :: caps) ++ (fs2.map padOf).flatten := by
  induction frags generalizing l with
  | nil => simp [findCombinedAux] at h
  | cons f t ih =>
    rw [findCombinedAux] at h
    cases hf : fragFullMatch f path with
    | some caps =>
      rw [hf] at h
      simp only [Option.some.injEq] at h
      exact ⟨[], f, t, caps, rfl, hf, by rw [← h]; simp⟩
    | none =>
      rw [hf] at h
      cases haux : findCombinedAux path t with
      | none => rw [haux] at h; cases h
      | some l' =>
        rw [haux] at h
        simp only [Option.map_some', Option.some.injEq] at h
        obtain ⟨fs1, f', fs2, caps, hfr, hfm, hl⟩ := ih l' haux
        refine ⟨f :: fs1, f', fs2, caps, by rw [hfr]; rfl, hfm, ?_⟩
        rw [← h, hl]
        simp [List.append_assoc]

/-- C2 (amended): for every route table built by `Handle` registrations
whose fragments' capture-group counts equal their parameter counts, and
every *non-empty* path on which the method's combined matcher succeeds, the
first-non-empty-capture-group scan lands on a slot holding a registered
route (never the nil sentinel, a parameter slot, or out of range); and the
route list is the nil sentinel followed by one block of `1 + len(params)`
slots per route in registration order.  (On the empty path a fragment such
as `/?/?` can match with every group empty and the scan runs out of range —
see the counterexample — and a fragment whose regex text adds capture
groups beyond its placeholders misaligns the blocks, hence the two
hypotheses.) -/
theorem C2_first_group_scan_safe
    (regs : List (String × Nat × List Nat)) (rs : List (Option RouteR))
    (path : List Char) (ms : List String)
    (hb : buildRoutes regs = some rs)
    (hcaps : ∀ rt : RouteR, some rt ∈ rs → fragCapCountO rt.reg = some rt.params.length)
    (hp : ¬ path = [])
    (hm : findCombined (fragsOf rs) path = some ms) :
    (∃ rt : RouteR, rs.get? (scanIdx ms) = some (some rt)) ∧
    (∃ rts : List RouteR, rs = none :: (rts.map blockOf).flatten) := by
  obtain ⟨rts, hshape⟩ := buildRoutesAux_shape regs [none] rs hb
  rw [List.singleton_append] at hshape
  have hmemrts : ∀ rt' ∈ rts, (some rt' : Option RouteR) ∈ rs := by
    intro rt' h'
    rw [hshape]
    refine List.mem_cons_of_mem _ ?_
    exact List.mem_flatten_of_mem (List.mem_map_of_mem _ h') (by simp [blockOf])
  have hfrags : fragsOf rs = rts.map (fun rt => rt.reg) := by
    rw [hshape, fragsOf_cons_none, fragsOf_blocks]
  unfold findCombined at hm
  cases haux : findCombinedAux path (fragsOf rs) with
  | none => rw [haux] at hm; cases hm
  | some l =>
    rw [haux] at hm
    simp only [Option.map_some', Option.some.injEq] at hm
    obtain ⟨fs1, f, fs2, caps, hfr, hfm, hl⟩ := findCombinedAux_spec path _ l haux
    rw [hfrags] at hfr
    rw [List.map_eq_append_iff] at hfr
    obtain ⟨rts1, l2, hrts, hm1, hm2⟩ := hfr
    rw [List.map_eq_cons_iff] at hm2
    obtain ⟨rt, rts2, hl2, hfrt, hm22⟩ := hm2
    have hsel : ¬ (String.mk path = "") := by
      intro hh
      exact hp (congrArg String.data hh)
    have hscan : scanIdx ms = 1 + ((fs1.map padOf).flatten).length := by
      rw [← hm]
      unfold scanIdx
      simp only [List.drop_succ_cons, List.drop_zero]
      rw [hl]
      rw [List.append_assoc, List.cons_append]
      rw [takeWhile_append_middle _ _ _ _
            (fun x hx => by simp [pad_mem_empty fs1 x hx])
            (by simp [hsel])]
    have hlen1 : ((fs1.map padOf).flatten).length = ((rts1.map blockOf).flatten).length := by
      rw [List.length_flatten, List.length_flatten, ← hm1]
      simp only [List.map_map]
      congr 1
      apply List.map_congr_left
      intro rt' hrt'
      have hc := hcaps rt' (hmemrts rt' (by rw [hrts]; exact List.mem_append_left _ hrt'))
      simp only [Function.comp, padOf, blockOf, List.length_replicate, List.length_cons,
        fragCapCount, hc, Option.getD_some]
      omega
    refine ⟨⟨rt, ?_⟩, rts, hshape⟩
    rw [hscan, hlen1, hshape, hrts, hl2]
    simp only [List.map_append, List.flatten_append, List.map_cons, List.flatten_cons]
    rw [Nat.add_comm 1 _]
    rw [List.get?_cons_succ]
    rw [List.get?_append_right (Nat.le_refl _), Nat.sub_self]
    rfl

/-- C2 counterexample: the pattern `/?` (accepted by `Parse`, fragment
`/?/?`) makes the combined matcher succeed on the *empty* request path with
every capture group empty; the first-non-empty-group scan then runs past
the end of the submatch array, `routes[method][i]` is out of range, and
dispatch panics — refuting the claim for "every path on which the matcher
succeeds". -/
theorem C2_scan_counterexample :
    buildRoutes c2Regs = some [none, some { reg := "/?/?", params := [], hasTS := false,
                                            mw := [], handler := 7, finalH := none }] ∧
    findCombined (fragsOf ((buildRoutes c2Regs).getD [])) "".data = some ["", ""] ∧
    scanIdx ["", ""] = 2 ∧
    ((buildRoutes c2Regs).getD []).get? (scanIdx ["", ""]) = none ∧
    (c2Router.map prepare).map (fun r => serveHTTP r "GET" "") = some [.panicked] :=
  ⟨rfl, rfl, rfl, rfl, rfl⟩

/-- Witness for C2 (amended): the C1 route table and the non-empty path
`/users/11`; all hypotheses hold and the scan lands on the second route's
slot. -/
theorem capAligned_of_list (rs : List (Option RouteR))
    (h : ∀ rt ∈ rs.filterMap id, fragCapCountO rt.reg = some rt.params.length) :
    ∀ rt : RouteR, some rt ∈ rs → fragCapCountO rt.reg = some rt.params.length := by
  intro rt hrt
  exact h rt (List.mem_filterMap.2 ⟨some rt, hrt, rfl⟩)

theorem C2_scan_safe_witness :
    buildRoutes c2wRegs = some c2wRs ∧
    (∀ rt : RouteR, some rt ∈ c2wRs → fragCapCountO rt.reg = some rt.params.length) ∧
    (¬ "/users/11".data = []) ∧
    findCombined (fragsOf c2wRs) "/users/11".data = some c2wMs ∧
    ((∃ rt : RouteR, c2wRs.get? (scanIdx c2wMs) = some (some rt)) ∧
     (∃ rts : List RouteR, c2wRs = none :: (rts.map blockOf).flatten)) := by
  refine ⟨rfl, capAligned_of_list _ (by decide), by decide, rfl, ?_⟩
  exact C2_first_group_scan_safe c2wRegs c2wRs "/users/11".data c2wMs rfl
    (capAligned_of_list _ (by decide)) (by decide) rfl

theorem setFinalH_idem (mws : List Nat) (rt : RouteR) :
    setFinalH mws (setFinalH mws rt) = setFinalH mws rt := rfl

theorem prepRoutes_idem (mws : List Nat) (routes : List (String × List (Option RouteR))) :
    prepRoutes mws (prepRoutes mws routes) = prepRoutes mws routes := by
  unfold prepRoutes
  rw [List.map_map]
  apply List.map_congr_left
  intro e _
  simp only [Function.comp]
  rw [List.map_map]
  congr 1
  apply List.map_congr_left
  intro o _
  cases o with
  | none => rfl
  | some rt => rfl

theorem prepRoutes_keys (mws : List Nat) (routes : List (String × List (Option RouteR))) :
    (prepRoutes mws routes).map Prod.fst = routes.map Prod.fst := by
  unfold prepRoutes
  rw [List.map_map]
  rfl

theorem fragsOf_map_setFinalH (mws : List Nat) (rs : List (Option RouteR)) :
    fragsOf (rs.map (Option.map (setFinalH mws))) = fragsOf rs := by
  induction rs with
  | nil => rfl
  | cons o t ih =>
    cases o with
    | none =>
      rw [List.map_cons]
      show fragsOf (none :: _) = _
      rw [fragsOf_cons_none, fragsOf_cons_none, ih]
    | some rt =>
      rw [List.map_cons]
      show fragsOf (some (setFinalH mws rt) :: _) = _
      rw [fragsOf_cons_some, fragsOf_cons_some, ih]
      rfl

theorem prepCreg_of_prepRoutes (mws : List Nat) (routes : List (String × List (Option RouteR)))
    (creg : List (String × List String)) :
    prepCreg (prepRoutes mws routes) creg = prepCreg routes creg := by
  induction routes generalizing creg with
  | nil => rfl
  | cons e t ih =>
    unfold prepRoutes prepCreg
    simp only [List.map_cons, List.foldl_cons]
    rw [fragsOf_map_setFinalH]
    exact ih (aupdate e.1 (fragsOf e.2) creg)

theorem alookup_aupdate_self {α : Type} (k : String) (v : α) (l : List (String × α)) :
    alookup k (aupdate k v l) = some v := by
  induction l with
  | nil => simp [aupdate, alookup]
  | cons e t ih =>
    rw [aupdate]
    by_cases he : e.1 = k
    · rw [if_pos he, alookup, if_pos he]
    · rw [if_neg he, alookup, if_neg he]
      exact ih

theorem alookup_aupdate_ne {α : Type} (k k' : String) (v : α) (l : List (String × α))
    (h : ¬ k' = k) : alookup k (aupdate k' v l) = alookup k l := by
  induction l with
  | nil => simp [aupdate, alookup, h]
  | cons e t ih =>
    rw [aupdate]
    by_cases he : e.1 = k'
    · rw [if_pos he, alookup, alookup]
      have : ¬ e.1 = k := by rw [he]; exact h
      rw [if_neg this, if_neg this]
    · rw [if_neg he, alookup, alookup]
      by_cases hk : e.1 = k
      · rw [if_pos hk, if_pos hk]
      · rw [if_neg hk, if_neg hk]
        exact ih

theorem aupdate_fix {α : Type} (k : String) (v : α) (l : List (String × α))
    (h : alookup k l = some v) : aupdate k v l = l := by
  induction l with
  | nil => simp [alookup] at h
  | cons e t ih =>
    rw [alookup] at h
    rw [aupdate]
    by_cases he : e.1 = k
    · rw [if_pos he] at h ⊢
      obtain ⟨k1, v1⟩ := e
      simp only [Option.some.injEq] at h
      rw [h]
    · rw [if_neg he] at h ⊢
      rw [ih h]

theorem alookup_prepCreg_notin (routes : List (String × List (Option RouteR)))
    (creg : List (String × List String)) (k : String)
    (h : ¬ k ∈ routes.map Prod.fst) :
    alookup k (prepCreg routes creg) = alookup k creg := by
  induction routes generalizing creg with
  | nil => rfl
  | cons e t ih =>
    rw [List.map_cons] at h
    unfold prepCreg
    rw [List.foldl_cons]
    have hne : ¬ e.1 = k := fun he => h (by rw [he]; exact List.mem_cons_self _ _)
    have ht : ¬ k ∈ t.map Prod.fst := fun hm => h (List.mem_cons_of_mem _ hm)
    have hih := ih (aupdate e.1 (fragsOf e.2) creg) ht
    unfold prepCreg at hih
    rw [hih]
    exact alookup_aupdate_ne k e.1 _ creg hne

theorem prepCreg_idem (routes : List (String × List (Option RouteR)))
    (hnd : (routes.map Prod.fst).Nodup) :
    ∀ creg, prepCreg routes (prepCreg routes creg) = prepCreg routes creg := by
  induction routes with
  | nil => intro creg; rfl
  | cons e t ih =>
    intro creg
    rw [List.map_cons, List.nodup_cons] at hnd
    obtain ⟨hknot, hndt⟩ := hnd
    show prepCreg t (aupdate e.1 (fragsOf e.2) (prepCreg t (aupdate e.1 (fragsOf e.2) creg)))
      = prepCreg t (aupdate e.1 (fragsOf e.2) creg)
    have hfix : aupdate e.1 (fragsOf e.2) (prepCreg t (aupdate e.1 (fragsOf e.2) creg))
        = prepCreg t (aupdate e.1 (fragsOf e.2) creg) := by
      apply aupdate_fix
      rw [alookup_prepCreg_notin t _ e.1 hknot]
      exact alookup_aupdate_self e.1 _ creg
    rw [hfix]
    exact ih hndt (aupdate e.1 (fragsOf e.2) creg)

mutual

theorem prepareAux_idem : ∀ (inh : List Nat) (r : Router), wfRouterB r = true →
    prepareAux inh (prepareAux inh r) = prepareAux inh r
  | inh, .mk gmw routes groups creg pol oh mh nh, hw => by
    rw [wfRouterB, Bool.and_eq_true] at hw
    obtain ⟨hnd, hwg⟩ := hw
    rw [prepareAux, prepareAux]
    rw [prepRoutes_idem]
    rw [prepareGroups_idem (inh ++ gmw) groups hwg]
    rw [prepCreg_of_prepRoutes]
    rw [prepCreg_idem routes (of_decide_eq_true hnd) creg]

theorem prepareGroups_idem : ∀ (inh : List Nat) (gs : GroupList), wfGroupsB gs = true →
    prepareGroups inh (prepareGroups inh gs) = prepareGroups inh gs
  | _, .nil, _ => rfl
  | inh, .cons p g t, hw => by
    rw [wfGroupsB, Bool.and_eq_true] at hw
    obtain ⟨hg, ht⟩ := hw
    rw [prepareGroups, prepareGroups]
    rw [prepareAux_idem inh g hg]
    rw [prepareGroups_idem inh t ht]

end

/-- C10: preparation is idempotent.  For every router whose routes maps have
no duplicate method keys (always true of the Go map), running `Prepare`
twice with no intervening registration yields the same router state as
running it once: identical combined matchers and identical finalised
handler chains — re-preparation never double-wraps a handler, because the
chains are rebuilt from the untouched bare `handler` field. -/
theorem C10_prepare_idempotent (r : Router) (hw : wfRouterB r = true) :
    prepare (prepare r) = prepare r :=
  prepareAux_idem [] r hw

/-- Witness for C10: the C6 router tree (root route, groups v1 and v2). -/
theorem C10_prepare_idempotent_witness :
    wfRouterB c10wr = true ∧ prepare (prepare c10wr) = prepare c10wr :=
  ⟨rfl, C10_prepare_idempotent c10wr rfl⟩

theorem scanPattern_cons_ne (c : Char) (t : List Char) (hc : ¬ c = '<') :
    scanPattern (c :: t) = (c :: (scanPattern t).1, (scanPattern t).2) := by
  show scanPatternF (t.length + 1) (c :: t) = _
  rw [scanPatternF, if_neg hc]
  rfl

theorem scanPattern_cons_match (t name rest : List Char) (sub? : Option (List Char))
    (hm : matchPlaceholder t = some (name, sub?, rest)) :
    scanPattern ('<' :: t) = (phReplacement sub? ++ (scanPattern rest).1,
                              (name, sub?) :: (scanPattern rest).2) := by
  show scanPatternF (t.length + 1) ('<' :: t) = _
  rw [scanPatternF, if_pos rfl]
  simp only [hm]
  have hlt := matchPlaceholder_rest_lt t name rest sub? hm
  have hir : scanPatternF t.length rest = scanPatternF rest.length rest :=
    scanPatternF_fuelIrrel rest.length rest t.length rest.length
      (Nat.le_refl _) (by omega) (Nat.le_refl _)
  rw [hir]
  rfl

theorem scanPattern_no_lt (l : List Char) (h : ¬ '<' ∈ l) : scanPattern l = (l, []) := by
  induction l with
  | nil => rfl
  | cons c t ih =>
    have hc : ¬ c = '<' := fun he => h (by rw [he]; exact List.mem_cons_self _ _)
    rw [scanPattern_cons_ne c t hc, ih (fun hm => h (List.mem_cons_of_mem _ hm))]

theorem scanPattern_append_no_lt (l m : List Char) (h : ¬ '<' ∈ l) :
    scanPattern (l ++ m) = (l ++ (scanPattern m).1, (scanPattern m).2) := by
  induction l with
  | nil => simp
  | cons c t ih =>
    have hc : ¬ c = '<' := fun he => h (by rw [he]; exact List.mem_cons_self _ _)
    rw [List.cons_append, scanPattern_cons_ne c _ hc,
        ih (fun hm => h (List.mem_cons_of_mem _ hm))]
    rfl

theorem lastGtSplit_append_gt (pre : List Char) (h : ¬ '>' ∈ pre) :
    lastGtSplit (pre ++ ['>']) = some (pre, []) := by
  induction pre with
  | nil => rfl
  | cons a t ih =>
    rw [List.cons_append, lastGtSplit, ih (fun hm => h (List.mem_cons_of_mem _ hm))]

theorem matchPlaceholder_named (name sub post : List Char)
    (hname1 : ¬ name = []) (hname2 : ∀ c ∈ name, ¬ (c = '/' ∨ c = ':'))
    (hsub1 : ¬ sub = []) (hsub2 : ∀ c ∈ sub, ¬ (c = '/' ∨ c = '>'))
    (hpost : post = [] ∨ post.head? = some '/') :
    matchPlaceholder (name ++ (':' :: (sub ++ ('>' :: post)))) = some (name, some sub, post) := by
  unfold matchPlaceholder
  have hR : (name ++ (':' :: (sub ++ ('>' :: post)))).takeWhile phG1 = name := by
    apply takeWhile_append_middle
    · intro x hx
      simp [phG1, hname2 x hx]
    · simp [phG1]
  rw [hR]
  rw [if_neg (by simp [hname1])]
  rw [List.drop_left]
  rw [matchPlaceholderTail]
  have ht2 : (sub ++ ('>' :: post) : List Char) = (sub ++ ['>']) ++ post := by
    simp
  have hS : (sub ++ ('>' :: post)).takeWhile phG3 = sub ++ ['>'] := by
    rw [ht2]
    rw [List.takeWhile_append_of_pos]
    · have hp0 : post.takeWhile phG3 = [] := by
        cases hpost with
        | inl h0 => rw [h0]; rfl
        | inr h1 =>
          cases post with
          | nil => rfl
          | cons a t =>
            simp only [List.head?_cons, Option.some.injEq] at h1
            rw [List.takeWhile_cons]
            simp [phG3, h1]
      rw [hp0, List.append_nil]
    · intro a ha
      rw [List.mem_append] at ha
      cases ha with
      | inl hs =>
        have hns : ¬ a = '/' := fun hq => (hsub2 a hs) (Or.inl hq)
        simp [phG3, hns]
      | inr hg =>
        rw [List.mem_singleton] at hg
        simp [phG3, hg]
  have hgt : ¬ '>' ∈ sub := fun hm => (hsub2 '>' hm) (Or.inr rfl)
  simp only [hS, lastGtSplit_append_gt sub hgt]
  rw [if_neg (by simp [hsub1])]
  have hdrop : (sub ++ ('>' :: post)).drop (sub ++ ['>']).length = post := by
    rw [ht2, List.drop_left]
  rw [hdrop]
  simp

/-- C4 (amended): a placeholder `<name:subexpr>` whose subexpression
contains *no* `/` (and no `>`) is recognised by the compiler: for every
pattern of the form prefix`<name:subexpr>`postfix — prefix beginning with
`/` and free of `<`, name non-empty and free of `/` and `:`, subexpr
non-empty and free of `/` and `>`, postfix empty or beginning with `/`,
free of `<` and not ending in `/` — the compiler appends `name` to the
parameter list and substitutes the placeholder with `(subexpr)`, the
subexpression text used verbatim.  (With a `/` in the subexpression the
default parser regexp `<([^/:]+)(:([^/]+))?>` cannot match and the
placeholder passes through literally — see the counterexample.) -/
theorem C4_placeholder_recognized (lit name sub post : List Char)
    (hlit1 : lit.head? = some '/') (hlit2 : ¬ '<' ∈ lit)
    (hname1 : ¬ name = []) (hname2 : ∀ c ∈ name, ¬ (c = '/' ∨ c = ':'))
    (hsub1 : ¬ sub = []) (hsub2 : ∀ c ∈ sub, ¬ (c = '/' ∨ c = '>'))
    (hpost : post = [] ∨ (post.head? = some '/' ∧ ¬ '<' ∈ post ∧ ¬ post.getLast? = some '/')) :
    parsePatternL (lit ++ ('<' :: (name ++ (':' :: (sub ++ ('>' :: post)))))) =
      Except.ok (lit ++ ('(' :: (sub ++ (')' :: (post ++ "/?".data)))),
                 [String.mk name], false) := by
  have hhead : (lit ++ ('<' :: (name ++ (':' :: (sub ++ ('>' :: post)))))).head? = some '/' := by
    cases lit with
    | nil => simp at hlit1
    | cons a t =>
      rw [List.head?_cons] at hlit1
      rw [List.cons_append, List.head?_cons]
      exact hlit1
  have hlast : ¬ (lit ++ ('<' :: (name ++ (':' :: (sub ++ ('>' :: post)))))).getLast?
      = some '/' := by
    cases hpost with
    | inl h0 =>
      subst h0
      have hre : (lit ++ ('<' :: (name ++ (':' :: (sub ++ ('>' :: ([] : List Char)))))))
          = (lit ++ ('<' :: (name ++ (':' :: sub)))) ++ ['>'] := by simp
      rw [hre, List.getLast?_concat]
      simp
    | inr h1 =>
      obtain ⟨hph, _, hpl⟩ := h1
      have hpne : ¬ post = [] := by
        intro h0; rw [h0] at hph; cases hph
      have hre : (lit ++ ('<' :: (name ++ (':' :: (sub ++ ('>' :: post))))))
          = (lit ++ ('<' :: (name ++ (':' :: (sub ++ ['>']))))) ++ post := by simp
      rw [hre, List.getLast?_append]
      cases hgl : post.getLast? with
      | none =>
        rw [List.getLast?_eq_none_iff] at hgl
        exact absurd hgl hpne
      | some y =>
        rw [hgl] at hpl
        simp [hpl]
  unfold parsePatternL
  rw [if_neg (by simp [hhead])]
  have hTS : ((¬ (lit ++ ('<' :: (name ++ (':' :: (sub ++ ('>' :: post)))))) = ['/'] : Bool)
      && ((lit ++ ('<' :: (name ++ (':' :: (sub ++ ('>' :: post)))))).getLast?
            = some '/' : Bool)) = false := by
    rw [decide_eq_false hlast, Bool.and_false]
  simp only [hTS, Bool.false_eq_true, if_false]
  have hposthead : post = [] ∨ post.head? = some '/' := by
    cases hpost with
    | inl h0 => exact Or.inl h0
    | inr h1 => exact Or.inr h1.1
  have hmp := matchPlaceholder_named name sub post hname1 hname2 hsub1 hsub2 hposthead
  rw [scanPattern_append_no_lt lit _ hlit2]
  rw [scanPattern_cons_match _ name post (some sub) hmp]
  have hsp : scanPattern post = (post, []) := by
    cases hpost with
    | inl h0 => rw [h0]; rfl
    | inr h1 => exact scanPattern_no_lt post h1.2.1
  rw [hsp]
  simp [phReplacement, List.append_assoc]

/-- Witness for C4 (amended): the pattern `/users/<id:\d+>` — prefix
`/users/`, name `id`, subexpression `\d+`, empty postfix — compiles to
fragment `/users/(\d+)/?` with parameter list `["id"]`. -/
theorem C4_placeholder_recognized_witness :
    ("/users/".data.head? = some '/') ∧ (¬ '<' ∈ "/users/".data) ∧
    (¬ "id".data = []) ∧ (∀ c ∈ "id".data, ¬ (c = '/' ∨ c = ':')) ∧
    (¬ "\\d+".data = []) ∧ (∀ c ∈ "\\d+".data, ¬ (c = '/' ∨ c = '>')) ∧
    parsePatternL ("/users/".data ++
        ('<' :: ("id".data ++ (':' :: ("\\d+".data ++ ('>' :: ([] : List Char))))))) =
      Except.ok ("/users/".data ++
          ('(' :: ("\\d+".data ++ (')' :: (([] : List Char) ++ "/?".data)))),
        [String.mk "id".data], false) := by
  refine ⟨by decide, by decide, by decide, by decide, by decide, by decide, ?_⟩
  exact C4_placeholder_recognized "/users/".data "id".data "\\d+".data []
    (by decide) (by decide) (by decide) (by decide) (by decide) (by decide) (Or.inl rfl)
